import Mathlib

/-!
Verification of the fertility-plot pipeline (src/plot_tfr_first_birth.py).

The script loads a CSV of per-country, per-year age-specific fertility
rates, filters to ISO-3 coded rows, keeps the most recent year per
country, derives TFR and MAC, drops degenerate rows, and classifies each
country into a region.  This file embeds those transformations over an
explicit row type and proves the specification's claims about them.
-/

/-- A row of the fertility table.  The nine rate columns are the columns
"f12" .. "f52" of the CSV; `code` is `none` when the Code cell is missing
(pandas reads a missing cell as the float NaN). -/
structure Row where
  entity : String
  code : Option String
  year : Int
  f12 : ℚ
  f17 : ℚ
  f22 : ℚ
  f27 : ℚ
  f32 : ℚ
  f37 : ℚ
  f42 : ℚ
  f47 : ℚ
  f52 : ℚ
deriving DecidableEq, Repr

/-- Python `str(c)` applied to the Code cell: a missing cell is the float
NaN, whose string form is "nan". -/
def strOfCode : Option String → String
  | none => "nan"
  | some s => s

/-- One character of the class [A-Z]. -/
def upperAZ (c : Char) : Bool := ('A' ≤ c) && (c ≤ 'Z')

/-- Python `re.match(r"^[A-Z]{3}$", s)` as a Boolean: three uppercase
letters, or (because Python's $ also matches just before a final newline)
three uppercase letters followed by a newline. -/
def iso3 (s : String) : Bool :=
  (s.data.length == 3 && s.data.all upperAZ) ||
  (s.data.length == 4 && (s.data.take 3).all upperAZ && s.data.getLast? == some '\n')

/-- Line 28: `df = df[df["Code"].apply(lambda c: bool(iso3.match(str(c))))]`. -/
def filterStep (t : List Row) : List Row :=
  t.filter fun r => iso3 (strOfCode r.code)

/-- Line 23: the age-group midpoints `np.array([12, 17, ..., 52])`. -/
def midpoints : List ℚ := [12, 17, 22, 27, 32, 37, 42, 47, 52]

/-- The nine rate cells of a row, in column order (line 24 / line 34). -/
def ratesOf (r : Row) : List ℚ :=
  [r.f12, r.f17, r.f22, r.f27, r.f32, r.f37, r.f42, r.f47, r.f52]

/-- Line 36: `total_rate = asfr.sum(axis=1)`. -/
def totalRate (r : Row) : ℚ := (ratesOf r).sum

/-- Line 37: `tfr = 5 * total_rate / 1000`.  With rational rate cells the
result is always a finite rational. -/
def tfrOf (r : Row) : ℚ := 5 * totalRate r / 1000

/-- Line 38, numerator: `(asfr * midpoints).sum(axis=1)` - elementwise
product of the rate cells with the midpoints, then summed. -/
def weightedRate (r : Row) : ℚ :=
  (List.zipWith (fun x m => x * m) (ratesOf r) midpoints).sum

/-- The value of a numpy floating-point division: finite, +inf, -inf or
NaN.  (We track finiteness exactly; rounding is not at issue in any
claim.) -/
inductive RVal where
  | fin (q : ℚ)
  | posInf
  | negInf
  | nan
deriving DecidableEq, Repr

/-- Numpy division semantics on exact values: x/0 is +inf or -inf for
nonzero x, and 0/0 is NaN. -/
def numpyDiv (num den : ℚ) : RVal :=
  if den ≠ 0 then RVal.fin (num / den)
  else if 0 < num then RVal.posInf
  else if num < 0 then RVal.negInf
  else RVal.nan

/-- Line 38: `mac = (asfr * midpoints).sum(axis=1) / total_rate`. -/
def macOf (r : Row) : RVal := numpyDiv (weightedRate r) (totalRate r)

/-- Whether an extended value is NaN (what `dropna` removes). -/
def RVal.isNan : RVal → Bool
  | RVal.nan => true
  | _ => false

/-- Lines 43-44: `latest.dropna(subset=["TFR", "MAC"])` followed by
`latest[latest["TFR"] > 0]`.  TFR is a finite rational here (rate cells
are rationals), so only a NaN MAC can trigger the dropna. -/
def dropStep (t : List Row) : List Row :=
  (t.filter fun r => !(macOf r).isNan).filter fun r => 0 < tfrOf r

/-- Code-point order on strings (the order Python/pandas sorts the group
keys by).  Stated on the underlying character lists, whose lexicographic
order evaluates in the kernel. -/
def strLe (s t : String) : Prop := s.data ≤ t.data

instance : DecidableRel strLe :=
  fun s t => inferInstanceAs (Decidable (s.data ≤ t.data))

instance : IsTotal String strLe := ⟨fun s t => le_total s.data t.data⟩

instance : IsTrans String strLe := ⟨fun _ _ _ h1 h2 => le_trans h1 h2⟩

instance : IsAntisymm String strLe := ⟨fun s t h1 h2 => by
  cases s; cases t
  simp only [strLe] at h1 h2
  simp [le_antisymm h1 h2]⟩

/-- Comparison of rows by Year, for `sort_values("Year")`. -/
def yearLe (a b : Row) : Prop := a.year ≤ b.year

instance : DecidableRel yearLe :=
  fun a b => inferInstanceAs (Decidable (a.year ≤ b.year))

instance : IsTotal Row yearLe := ⟨fun a b => Int.le_total a.year b.year⟩

instance : IsTrans Row yearLe := ⟨fun _ _ _ h1 h2 => le_trans h1 h2⟩

/-- Line 31, first stage: `df.sort_values("Year")`, a stable sort by
Year.  (pandas' default sort kind is unstable on ties; no claim depends
on the order among rows of equal Year, so a stable sort represents it.) -/
def sortByYear (t : List Row) : List Row := List.insertionSort yearLe t

/-- The group keys of `groupby("Entity")`: the distinct Entity values in
sorted order (pandas sorts group keys). -/
def entityKeys (t : List Row) : List String :=
  List.insertionSort strLe (t.map Row.entity).dedup

/-- The `.last()` aggregation of one Entity group (the group is listed in
year-sorted order).  pandas `last()` takes, per column, the last non-null
entry: Year and the rate columns are never null, so they come from the
last row; Code is the last non-null Code in the group. -/
def groupLast (e : String) (l : List Row) : Option Row :=
  match l.getLast? with
  | none => none
  | some r => some
      { entity := e, code := (l.filterMap Row.code).getLast?, year := r.year,
        f12 := r.f12, f17 := r.f17, f22 := r.f22, f27 := r.f27, f32 := r.f32,
        f37 := r.f37, f42 := r.f42, f47 := r.f47, f52 := r.f52 }

/-- Line 31: `df.sort_values("Year").groupby("Entity").last().reset_index()` -
for each Entity key in sorted order, the `.last()` aggregation of its
year-sorted group. -/
def latest (t : List Row) : List Row :=
  (entityKeys t).filterMap fun e =>
    groupLast e ((sortByYear t).filter fun r => r.entity == e)

/-- Lines 48-54: the hand-coded `africa` set. -/
def africa : List String :=
  ["DZA","AGO","BEN","BWA","BFA","BDI","CPV","CMR","CAF","TCD","COM","COD",
   "COG","CIV","DJI","EGY","GNQ","ERI","SWZ","ETH","GAB","GMB","GHA","GIN",
   "GNB","KEN","LSO","LBR","LBY","MDG","MWI","MLI","MRT","MUS","MAR","MOZ",
   "NAM","NER","NGA","RWA","STP","SEN","SLE","SOM","ZAF","SSD","SDN","TZA",
   "TGO","TUN","UGA","ZMB","ZWE","REU","MYT","SHN"]

/-- Lines 55-60: the hand-coded `europe` set. -/
def europe : List String :=
  ["ALB","AND","AUT","BLR","BEL","BIH","BGR","HRV","CYP","CZE","DNK","EST",
   "FIN","FRA","DEU","GRC","HUN","ISL","IRL","ITA","XKX","LVA","LIE","LTU",
   "LUX","MLT","MDA","MCO","MNE","NLD","MKD","NOR","POL","PRT","ROU","RUS",
   "SMR","SRB","SVK","SVN","ESP","SWE","CHE","UKR","GBR","VAT"]

/-- Lines 61-65: the hand-coded `americas` set. -/
def americas : List String :=
  ["ATG","ARG","BHS","BRB","BLZ","BOL","BRA","CAN","CHL","COL","CRI","CUB",
   "DMA","DOM","ECU","SLV","GRD","GTM","GUY","HTI","HND","JAM","MEX","NIC",
   "PAN","PRY","PER","KNA","LCA","VCT","SUR","TTO","USA","URY","VEN"]

/-- Lines 66-69: the hand-coded `oceania` set. -/
def oceania : List String :=
  ["AUS","FJI","KIR","MHL","FSM","NRU","NZL","PLW","PNG","WSM","SLB","TON",
   "TUV","VUT"]

/-- Lines 71-76: `get_region`, membership tests in priority order with
"Asia & Middle East" as the fallback. -/
def get_region (code : String) : String :=
  if africa.contains code then "Africa"
  else if europe.contains code then "Europe"
  else if americas.contains code then "Americas"
  else if oceania.contains code then "Oceania"
  else "Asia & Middle East"

/-- A membership-test chain over an explicit list of (set, label) tests,
with `get_region`'s fallback.  Used to state that the order of the four
tests in `get_region` does not matter. -/
def classify : List (List String × String) → String → String
  | [], _ => "Asia & Middle East"
  | (s, lab) :: rest, c => if s.contains c then lab else classify rest c

/-- The four membership tests of `get_region`, in source order. -/
def regionTests : List (List String × String) :=
  [(africa, "Africa"), (europe, "Europe"), (americas, "Americas"),
   (oceania, "Oceania")]

/-- The synthetic example row of the specification: rates
[0,0,50,100,80,30,5,0,0]. -/
def exRow : Row :=
  { entity := "Example", code := some "EXA", year := 2020,
    f12 := 0, f17 := 0, f22 := 50, f27 := 100, f32 := 80, f37 := 30,
    f42 := 5, f47 := 0, f52 := 0 }

/-- A row with all rate cells zero, for concrete test tables. -/
def plainRow (e : String) (c : Option String) (y : Int) : Row :=
  { entity := e, code := c, year := y,
    f12 := 0, f17 := 0, f22 := 0, f27 := 0, f32 := 0, f37 := 0,
    f42 := 0, f47 := 0, f52 := 0 }

/-! ## Basic facts used by several witnesses -/

/-- The regex rejects the string form "nan" of a missing code. -/
theorem iso3_nan : iso3 (strOfCode none) = false := by decide

/-! ## Claim theorems -/

/-- Claim C2: for every row of 9 rate values, the derived TFR equals
5 times the sum of the 9 rates divided by 1000; in particular for the
rates [0,0,50,100,80,30,5,0,0] the total is 265 and the TFR is 1.325. -/
theorem claim_C2 :
    (∀ r : Row, tfrOf r =
      5 * (r.f12 + r.f17 + r.f22 + r.f27 + r.f32 + r.f37 + r.f42 + r.f47 +
        r.f52) / 1000) ∧
    totalRate exRow = 265 ∧ tfrOf exRow = 1.325 := by
  refine ⟨fun r => ?_, by norm_num [totalRate, ratesOf, exRow],
    by norm_num [tfrOf, totalRate, ratesOf, exRow]⟩
  simp [tfrOf, totalRate, ratesOf]
  ring

/-- Claim C3: for every row with non-zero rate total, the derived MAC is
the finite value Σ(r_i * m_i) / Σ r_i with the fixed midpoints
12,17,22,27,32,37,42,47,52. -/
theorem claim_C3 (r : Row) (h : totalRate r ≠ 0) :
    macOf r = RVal.fin ((12 * r.f12 + 17 * r.f17 + 22 * r.f22 + 27 * r.f27 +
      32 * r.f32 + 37 * r.f37 + 42 * r.f42 + 47 * r.f47 + 52 * r.f52) /
        totalRate r) := by
  have hw : weightedRate r = 12 * r.f12 + 17 * r.f17 + 22 * r.f22 +
      27 * r.f27 + 32 * r.f32 + 37 * r.f37 + 42 * r.f42 + 47 * r.f47 +
      52 * r.f52 := by
    simp [weightedRate, ratesOf, midpoints]
    ring
  rw [macOf, hw, numpyDiv, if_pos h]

/-- Witness for C3: the example row has total 265 ≠ 0 and its MAC is the
weighted-average formula evaluated there. -/
theorem claim_C3_witness :
    macOf exRow = RVal.fin ((12 * exRow.f12 + 17 * exRow.f17 +
      22 * exRow.f22 + 27 * exRow.f27 + 32 * exRow.f32 + 37 * exRow.f37 +
      42 * exRow.f42 + 47 * exRow.f47 + 52 * exRow.f52) / totalRate exRow) :=
  claim_C3 exRow (by norm_num [totalRate, ratesOf, exRow])

/-- Claim C4, counterexample: for the example rates [0,0,50,100,80,30,5,0,0]
the derived MAC is 7680/265 ≈ 28.98, which exceeds the claimed value 28.75
by more than 0.2, so it is not "approximately 28.75". -/
theorem claim_C4_cex :
    macOf exRow = RVal.fin (7680 / 265) ∧
    (1 / 5 : ℚ) < 7680 / 265 - 28.75 := by
  constructor
  · have hw : weightedRate exRow = 7680 := by
      norm_num [weightedRate, ratesOf, midpoints, exRow]
    have ht : totalRate exRow = 265 := by norm_num [totalRate, ratesOf, exRow]
    rw [macOf, hw, ht, numpyDiv]
    norm_num
  · norm_num

/-- Claim C4 as amended: for the example rates the derived MAC equals
(22*50 + 27*100 + 32*80 + 37*30 + 42*5)/265 = 7680/265, which is
approximately 28.98 (within 0.01), not 28.75. -/
theorem claim_C4 :
    macOf exRow =
      RVal.fin ((22 * 50 + 27 * 100 + 32 * 80 + 37 * 30 + 42 * 5 : ℚ) / 265) ∧
    ((22 * 50 + 27 * 100 + 32 * 80 + 37 * 30 + 42 * 5 : ℚ) / 265 - 28.98 <
      1 / 100) ∧
    (-(1 / 100) : ℚ) <
      (22 * 50 + 27 * 100 + 32 * 80 + 37 * 30 + 42 * 5 : ℚ) / 265 - 28.98 := by
  refine ⟨?_, by norm_num, by norm_num⟩
  have hw : weightedRate exRow = 7680 := by
    norm_num [weightedRate, ratesOf, midpoints, exRow]
  have ht : totalRate exRow = 265 := by norm_num [totalRate, ratesOf, exRow]
  rw [macOf, hw, ht, numpyDiv]
  norm_num

/-- Claim C5: every row retained by the drop step has TFR > 0 and a
finite MAC, and any row whose rate values sum to zero is removed by the
drop step. -/
theorem claim_C5 (t : List Row) (r : Row) :
    (r ∈ dropStep t → 0 < tfrOf r ∧ ∃ q, macOf r = RVal.fin q) ∧
    (totalRate r = 0 → r ∉ dropStep t) := by
  constructor
  · intro h
    have h2 := (List.mem_filter.mp h).2
    have htfr : 0 < tfrOf r := by simpa using h2
    refine ⟨htfr, ?_⟩
    have htot : totalRate r = 200 * tfrOf r := by unfold tfrOf; ring
    have hpos : (0 : ℚ) < totalRate r := by rw [htot]; positivity
    exact ⟨weightedRate r / totalRate r,
      by rw [macOf, numpyDiv, if_pos (ne_of_gt hpos)]⟩
  · intro h0 hin
    have h2 := (List.mem_filter.mp hin).2
    have : (0 : ℚ) < tfrOf r := by simpa using h2
    rw [tfrOf, h0] at this
    norm_num at this

/-- Witness for C5: the example row survives the drop step of the
one-row table and therefore has TFR > 0 and a finite MAC. -/
theorem claim_C5_witness : 0 < tfrOf exRow ∧ ∃ q, macOf exRow = RVal.fin q :=
  (claim_C5 [exRow] exRow).1 (by
    have h1 : totalRate exRow = 265 := by norm_num [totalRate, ratesOf, exRow]
    have h2 : macOf exRow = RVal.fin (7680 / 265) := by
      have hw : weightedRate exRow = 7680 := by
        norm_num [weightedRate, ratesOf, midpoints, exRow]
      rw [macOf, hw, h1, numpyDiv]
      norm_num
    have h3 : (0 : ℚ) < tfrOf exRow := by rw [tfrOf, h1]; norm_num
    simp [dropStep, List.filter_cons, h2, h3, RVal.isNan])

/-- Claim C6: the region classifier is a total function into the five
fixed labels, and maps "FRA" to "Europe", "NGA" to "Africa", and the
unmapped "XYZ" to "Asia & Middle East". -/
theorem claim_C6 :
    (∀ c : String, get_region c = "Africa" ∨ get_region c = "Europe" ∨
      get_region c = "Americas" ∨ get_region c = "Oceania" ∨
      get_region c = "Asia & Middle East") ∧
    get_region "FRA" = "Europe" ∧ get_region "NGA" = "Africa" ∧
    get_region "XYZ" = "Asia & Middle East" := by
  refine ⟨fun c => ?_, by decide, by decide, by decide⟩
  unfold get_region
  split_ifs <;> simp

/-- Claim C8: the regex filter only removes rows (its output is a sublist
of its input), keeps exactly the rows whose stringified Code matches
the ISO-3 pattern, and excludes every row that fails the pattern. -/
theorem claim_C8 (t : List Row) :
    (filterStep t).Sublist t ∧
    (∀ r ∈ filterStep t, iso3 (strOfCode r.code) = true) ∧
    (∀ r ∈ t, iso3 (strOfCode r.code) = false → r ∉ filterStep t) := by
  refine ⟨List.filter_sublist t,
    fun r hr => (List.mem_filter.mp hr).2,
    fun r hr hf hin => ?_⟩
  have h2 := (List.mem_filter.mp hin).2
  rw [hf] at h2
  exact Bool.false_ne_true h2

/-- Witness for C8: a row with a lowercase code is a member of the table
and is excluded by the filter. -/
theorem claim_C8_witness :
    plainRow "X" (some "abc") 0 ∉ filterStep [plainRow "X" (some "abc") 0] :=
  (claim_C8 [plainRow "X" (some "abc") 0]).2.2 (plainRow "X" (some "abc") 0)
    (by decide) (by decide)

/-- Claim C10: a row whose Code cell is missing is silently excluded by
the regex filter, because the missing value stringifies to "nan", which
fails the ISO-3 pattern. -/
theorem claim_C10 (t : List Row) (r : Row) (h1 : r ∈ t) (h2 : r.code = none) :
    r ∉ filterStep t := by
  intro hin
  have h3 := (List.mem_filter.mp hin).2
  rw [h2, iso3_nan] at h3
  exact Bool.false_ne_true h3

/-- Witness for C10: the one-row table whose row has a missing Code has
that row excluded by the filter. -/
theorem claim_C10_witness :
    plainRow "Y" none 5 ∉ filterStep [plainRow "Y" none 5] :=
  claim_C10 [plainRow "Y" none 5] (plainRow "Y" none 5) (by decide) rfl

/-! ## Region-set disjointness and order-independence (C9) -/

/-- Two membership tests with disjoint code sets. -/
def DisjTest (p q : List String × String) : Prop := ∀ c, c ∈ p.1 → c ∉ q.1

theorem disjTest_symm {p q : List String × String} (h : DisjTest p q) :
    DisjTest q p :=
  fun c hcq hcp => h c hcp hcq

theorem disjoint_of_all {a b : List String}
    (hd : (a.all fun x => !(b.contains x)) = true) {c : String}
    (h : c ∈ a) : c ∉ b := by
  intro hb
  have := List.all_eq_true.mp hd c h
  simp at this
  exact this hb

/-- Reordering a chain of pairwise-disjoint membership tests does not
change the classification. -/
theorem classify_perm {l1 l2 : List (List String × String)} (hp : l1.Perm l2)
    (hd : l1.Pairwise DisjTest) : ∀ c, classify l1 c = classify l2 c := by
  induction hp with
  | nil => intro c; rfl
  | cons x hp ih =>
      intro c
      obtain ⟨s, lab⟩ := x
      simp only [classify]
      rcases h : s.contains c with _ | _
      · simp only [Bool.false_eq_true, if_false]
        exact ih (List.pairwise_cons.mp hd).2 c
      · simp
  | swap x y l =>
      intro c
      obtain ⟨s1, l1⟩ := x
      obtain ⟨s2, l2⟩ := y
      simp only [classify]
      rcases h1 : s1.contains c with _ | _ <;> rcases h2 : s2.contains c with _ | _ <;> simp
      · exfalso
        have hdisj : DisjTest (s2, l2) (s1, l1) :=
          (List.pairwise_cons.mp hd).1 (s1, l1) (by simp)
        have hc2 : c ∈ s2 := by simpa using h2
        have hc1 : c ∈ s1 := by simpa using h1
        exact hdisj c hc2 hc1
  | trans p1 p2 ih1 ih2 =>
      intro c
      rw [ih1 hd c, ih2 ((p1.pairwise_iff disjTest_symm).mp hd) c]

/-- The four region tests of the source are pairwise disjoint. -/
theorem regionTests_pairwise : regionTests.Pairwise DisjTest := by
  have hAE : DisjTest (africa, "Africa") (europe, "Europe") :=
    fun c => disjoint_of_all (by decide)
  have hAM : DisjTest (africa, "Africa") (americas, "Americas") :=
    fun c => disjoint_of_all (by decide)
  have hAO : DisjTest (africa, "Africa") (oceania, "Oceania") :=
    fun c => disjoint_of_all (by decide)
  have hEM : DisjTest (europe, "Europe") (americas, "Americas") :=
    fun c => disjoint_of_all (by decide)
  have hEO : DisjTest (europe, "Europe") (oceania, "Oceania") :=
    fun c => disjoint_of_all (by decide)
  have hMO : DisjTest (americas, "Americas") (oceania, "Oceania") :=
    fun c => disjoint_of_all (by decide)
  refine List.Pairwise.cons ?_ (List.Pairwise.cons ?_ (List.Pairwise.cons ?_
    (List.Pairwise.cons ?_ List.Pairwise.nil)))
  · intro a ha
    simp only [List.mem_cons, List.not_mem_nil, or_false] at ha
    rcases ha with rfl | rfl | rfl
    · exact hAE
    · exact hAM
    · exact hAO
  · intro a ha
    simp only [List.mem_cons, List.not_mem_nil, or_false] at ha
    rcases ha with rfl | rfl
    · exact hEM
    · exact hEO
  · intro a ha
    simp only [List.mem_cons, List.not_mem_nil, or_false] at ha
    rcases ha with rfl
    exact hMO
  · intro a ha
    simp at ha

/-- The source's if-chain is the classification by the test list in
source order. -/
theorem classify_eq_get_region (c : String) :
    classify regionTests c = get_region c := by
  simp only [classify, regionTests, get_region]

/-- Claim C9: the four hand-coded region sets are pairwise disjoint, and
consequently any reordering of the four membership tests classifies every
code exactly as `get_region` does. -/
theorem claim_C9 :
    (∀ c : String, ¬(c ∈ africa ∧ c ∈ europe) ∧ ¬(c ∈ africa ∧ c ∈ americas) ∧
      ¬(c ∈ africa ∧ c ∈ oceania) ∧ ¬(c ∈ europe ∧ c ∈ americas) ∧
      ¬(c ∈ europe ∧ c ∈ oceania) ∧ ¬(c ∈ americas ∧ c ∈ oceania)) ∧
    (∀ l : List (List String × String), l.Perm regionTests →
      ∀ c : String, classify l c = get_region c) := by
  constructor
  · intro c
    exact ⟨fun h => disjoint_of_all (by decide) h.1 h.2,
      fun h => disjoint_of_all (by decide) h.1 h.2,
      fun h => disjoint_of_all (by decide) h.1 h.2,
      fun h => disjoint_of_all (by decide) h.1 h.2,
      fun h => disjoint_of_all (by decide) h.1 h.2,
      fun h => disjoint_of_all (by decide) h.1 h.2⟩
  · intro l hp c
    rw [← classify_eq_get_region c]
    exact classify_perm hp ((hp.pairwise_iff disjTest_symm).mpr regionTests_pairwise) c

/-- Witness for C9: swapping the first two tests (Europe before Africa)
classifies "FRA" exactly as `get_region` does. -/
theorem claim_C9_witness :
    classify [(europe, "Europe"), (africa, "Africa"), (americas, "Americas"),
      (oceania, "Oceania")] "FRA" = get_region "FRA" :=
  claim_C9.2 _ (List.Perm.swap (africa, "Africa") (europe, "Europe")
    [(americas, "Americas"), (oceania, "Oceania")]) "FRA"

/-! ## The latest-year selection (C1, C7) -/

theorem mem_of_getLast?_eq {α : Type} {l : List α} {a : α}
    (h : l.getLast? = some a) : a ∈ l := by
  have hne : l ≠ [] := by rintro rfl; simp at h
  rw [List.getLast?_eq_getLast l hne] at h
  injection h with h
  rw [← h]
  exact List.getLast_mem hne

theorem getLast?_cons_of_ne {α : Type} {x : α} {xs : List α} (h : xs ≠ []) :
    (x :: xs).getLast? = xs.getLast? := by
  cases xs with
  | nil => exact absurd rfl h
  | cons b l => exact List.getLast?_cons_cons

theorem pairwise_getLast_year {l : List Row} (hs : l.Pairwise yearLe) {r : Row}
    (h : l.getLast? = some r) : ∀ x ∈ l, x.year ≤ r.year := by
  induction l with
  | nil => simp at h
  | cons a l ih =>
      cases l with
      | nil =>
          simp at h
          intro x hx
          simp at hx
          rw [hx, h]
      | cons b l2 =>
          rw [List.getLast?_cons_cons] at h
          have hp := List.pairwise_cons.mp hs
          intro x hx
          rcases List.mem_cons.mp hx with rfl | hx2
          · exact hp.1 r (mem_of_getLast?_eq h)
          · exact ih hp.2 h x hx2

theorem filterMap_keys_map {keys : List String} {F : String → Option Row}
    (h : ∀ k ∈ keys, ∃ R, F k = some R ∧ R.entity = k) :
    (keys.filterMap F).map Row.entity = keys := by
  induction keys with
  | nil => rfl
  | cons k ks ih =>
      obtain ⟨R, hFk, hRe⟩ := h k (List.mem_cons_self k ks)
      rw [List.filterMap_cons, hFk, List.map_cons, hRe,
        ih fun x hx => h x (List.mem_cons_of_mem k hx)]

theorem countP_filterMap_keys {keys : List String} {F : String → Option Row}
    (hnd : keys.Nodup)
    (h : ∀ k ∈ keys, ∃ R, F k = some R ∧ R.entity = k) (e : String) :
    (keys.filterMap F).countP (fun r => r.entity == e) =
      if e ∈ keys then 1 else 0 := by
  induction keys with
  | nil => simp
  | cons k ks ih =>
      obtain ⟨R, hFk, hRe⟩ := h k (List.mem_cons_self k ks)
      have hnd2 := List.nodup_cons.mp hnd
      rw [List.filterMap_cons, hFk, List.countP_cons,
        ih hnd2.2 fun x hx => h x (List.mem_cons_of_mem k hx)]
      by_cases hk : k = e
      · have hks : e ∉ ks := hk ▸ hnd2.1
        simp [List.mem_cons, hk, hks, hRe]
      · have hbe : (R.entity == e) = false := by rw [hRe]; simpa using hk
        simp [hbe, List.mem_cons, Ne.symm hk]

theorem mem_entityKeys {t : List Row} {e : String} :
    e ∈ entityKeys t ↔ e ∈ t.map Row.entity := by
  rw [entityKeys, (List.perm_insertionSort strLe _).mem_iff, List.mem_dedup]

theorem entityKeys_nodup (t : List Row) : (entityKeys t).Nodup :=
  ((List.perm_insertionSort strLe _).nodup_iff).mpr (List.nodup_dedup _)

theorem code_isSome_of_mem_filterStep {t : List Row} {x : Row}
    (h : x ∈ filterStep t) : x.code.isSome = true := by
  have h2 := (List.mem_filter.mp h).2
  cases hc : x.code with
  | some s => rfl
  | none =>
      rw [hc, iso3_nan] at h2
      exact absurd h2 Bool.false_ne_true

theorem codes_getLast {l : List Row} {r : Row}
    (hall : ∀ x ∈ l, x.code.isSome = true) (hl : l.getLast? = some r) :
    (l.filterMap Row.code).getLast? = r.code := by
  induction l with
  | nil => simp at hl
  | cons a l ih =>
      cases l with
      | nil =>
          simp at hl
          obtain ⟨c, hc⟩ := Option.isSome_iff_exists.mp
            (hall a (List.mem_cons_self a []))
          rw [← hl]
          simp [List.filterMap_cons, hc]
      | cons b l2 =>
          rw [List.getLast?_cons_cons] at hl
          obtain ⟨c, hc⟩ := Option.isSome_iff_exists.mp
            (hall a (List.mem_cons_self a (b :: l2)))
          have hall2 : ∀ x ∈ b :: l2, x.code.isSome = true :=
            fun x hx => hall x (List.mem_cons_of_mem a hx)
          obtain ⟨cb, hcb⟩ := Option.isSome_iff_exists.mp
            (hall2 b (List.mem_cons_self b l2))
          have hne : (b :: l2).filterMap Row.code ≠ [] := by
            intro hcontra
            have : cb ∈ (b :: l2).filterMap Row.code :=
              List.mem_filterMap.mpr ⟨b, List.mem_cons_self b l2, hcb⟩
            rw [hcontra] at this
            simp at this
          rw [List.filterMap_cons, hc, getLast?_cons_of_ne hne]
          exact ih hall2 hl

theorem groupLast_eq_of_codes {e : String} {l : List Row} {r : Row}
    (hall : ∀ x ∈ l, x.code.isSome = true) (hl : l.getLast? = some r)
    (he : r.entity = e) : groupLast e l = some r := by
  rw [groupLast, hl, codes_getLast hall hl, ← he]

theorem latest_key_some {t : List Row} {e : String} (he : e ∈ entityKeys t) :
    ∃ R, groupLast e ((sortByYear t).filter fun r => r.entity == e) = some R ∧
      R.entity = e := by
  have he2 : e ∈ (sortByYear t).map Row.entity := by
    rw [List.mem_map] at *
    obtain ⟨x, hx, hxe⟩ := List.mem_map.mp (mem_entityKeys.mp he)
    exact ⟨x, ((List.perm_insertionSort yearLe t).mem_iff).mpr hx, hxe⟩
  obtain ⟨x, hx, hxe⟩ := List.mem_map.mp he2
  have hxmem : x ∈ (sortByYear t).filter fun r => r.entity == e :=
    List.mem_filter.mpr ⟨hx, by rw [hxe]; exact beq_self_eq_true e⟩
  have hne : ((sortByYear t).filter fun r => r.entity == e) ≠ [] :=
    List.ne_nil_of_mem hxmem
  obtain ⟨R0, hR0⟩ := Option.isSome_iff_exists.mp (List.getLast?_isSome.mpr hne)
  have hgl : groupLast e ((sortByYear t).filter fun r => r.entity == e) =
      some { entity := e,
             code := (((sortByYear t).filter fun r =>
               r.entity == e).filterMap Row.code).getLast?,
             year := R0.year, f12 := R0.f12, f17 := R0.f17, f22 := R0.f22,
             f27 := R0.f27, f32 := R0.f32, f37 := R0.f37, f42 := R0.f42,
             f47 := R0.f47, f52 := R0.f52 } := by
    rw [groupLast, hR0]
  exact ⟨_, hgl, rfl⟩

theorem filter_entity_eq_singleton {s : List Row}
    (hnd : (s.map Row.entity).Nodup) {r : Row} (hr : r ∈ s) :
    s.filter (fun x => x.entity == r.entity) = [r] := by
  induction s with
  | nil => simp at hr
  | cons a s ih =>
      rw [List.map_cons, List.nodup_cons] at hnd
      rcases List.mem_cons.mp hr with rfl | hr2
      · rw [List.filter_cons_of_pos (by exact beq_self_eq_true r.entity)]
        have : s.filter (fun x => x.entity == r.entity) = [] := by
          rw [List.filter_eq_nil_iff]
          intro x hx
          simp only [Bool.not_eq_true]
          have : x.entity ≠ r.entity := by
            intro hcontra
            exact hnd.1 (hcontra ▸ List.mem_map_of_mem Row.entity hx)
          simpa using this
        rw [this]
      · have hane : (a.entity == r.entity) = false := by
          have : a.entity ≠ r.entity := by
            intro hcontra
            exact hnd.1 (hcontra ▸ List.mem_map_of_mem Row.entity hr2)
          simpa using this
        rw [List.filter_cons_of_neg (by simp [hane])]
        exact ih hnd.2 hr2

theorem groupLast_singleton (r : Row) : groupLast r.entity [r] = some r := by
  cases r with
  | mk ent cod y q1 q2 q3 q4 q5 q6 q7 q8 q9 =>
      cases cod with
      | none => rfl
      | some c => rfl

theorem filterMap_eq_self_of {α : Type} {l : List α} {f : α → Option α}
    (h : ∀ x ∈ l, f x = some x) : l.filterMap f = l := by
  induction l with
  | nil => rfl
  | cons a l ih =>
      rw [List.filterMap_cons, h a (List.mem_cons_self a l),
        ih fun x hx => h x (List.mem_cons_of_mem a hx)]

theorem latest_map_entity (t : List Row) :
    (latest t).map Row.entity = entityKeys t :=
  filterMap_keys_map fun k hk => latest_key_some hk

theorem entityKeys_latest (t : List Row) :
    entityKeys (latest t) = entityKeys t := by
  rw [entityKeys, latest_map_entity, List.dedup_eq_self.mpr (entityKeys_nodup t)]
  exact List.eq_of_perm_of_sorted (List.perm_insertionSort strLe _)
    (List.sorted_insertionSort strLe _)
    (by rw [entityKeys]; exact List.sorted_insertionSort strLe _)

/-- Claim C7: the latest-year selection is idempotent - applied to its
own output (one row per Entity group, in key order) it returns that
table unchanged. -/
theorem claim_C7 (t : List Row) : latest (latest t) = latest t := by
  have hA : (latest t).map Row.entity = entityKeys t := latest_map_entity t
  have hndS : ((latest t).map Row.entity).Nodup := by
    rw [hA]; exact entityKeys_nodup t
  have hfix : ∀ r ∈ latest t,
      groupLast r.entity
        ((sortByYear (latest t)).filter fun x => x.entity == r.entity) =
        some r := by
    intro r hr
    have hsingle : (latest t).filter (fun x => x.entity == r.entity) = [r] :=
      filter_entity_eq_singleton hndS hr
    have hs2 : (sortByYear (latest t)).filter
        (fun x => x.entity == r.entity) = [r] :=
      List.perm_singleton.mp
        (by rw [← hsingle]
            exact (List.perm_insertionSort yearLe _).filter _)
    rw [hs2]
    exact groupLast_singleton r
  conv_lhs => rw [latest]
  rw [entityKeys_latest, ← hA, List.filterMap_map]
  exact filterMap_eq_self_of fun x hx => hfix x hx

/-- Claim C1 as amended: the grouping key of the latest-year selection
is Entity, not Code.  For every Entity appearing in the regex-filtered
input, the output contains exactly one row with that Entity; that row
comes from the filtered input and its Year is the maximum Year among the
filtered rows with that Entity.  (One row per Code additionally requires
each Code of the filtered input to belong to a single Entity.) -/
theorem claim_C1 (t : List Row) (e : String)
    (he : e ∈ (filterStep t).map Row.entity) :
    (latest (filterStep t)).countP (fun r => r.entity == e) = 1 ∧
    ∃ r ∈ latest (filterStep t), r.entity = e ∧ r ∈ filterStep t ∧
      ∀ x ∈ filterStep t, x.entity = e → x.year ≤ r.year := by
  have hkeys : e ∈ entityKeys (filterStep t) := mem_entityKeys.mpr he
  constructor
  · simp only [latest]
    rw [countP_filterMap_keys (entityKeys_nodup (filterStep t))
      (fun k hk => latest_key_some hk) e, if_pos hkeys]
  · have hall : ∀ x ∈ (sortByYear (filterStep t)).filter
        fun r => r.entity == e, x.code.isSome = true := by
      intro x hx
      have hx2 : x ∈ sortByYear (filterStep t) := (List.mem_filter.mp hx).1
      exact code_isSome_of_mem_filterStep
        (((List.perm_insertionSort yearLe (filterStep t)).mem_iff).mp hx2)
    obtain ⟨x0, hx0, hx0e⟩ := List.mem_map.mp he
    have hx0s : x0 ∈ sortByYear (filterStep t) :=
      ((List.perm_insertionSort yearLe (filterStep t)).mem_iff).mpr hx0
    have hx0f : x0 ∈ (sortByYear (filterStep t)).filter
        fun r => r.entity == e :=
      List.mem_filter.mpr ⟨hx0s, by rw [hx0e]; exact beq_self_eq_true e⟩
    have hne := List.ne_nil_of_mem hx0f
    obtain ⟨r, hr⟩ :=
      Option.isSome_iff_exists.mp (List.getLast?_isSome.mpr hne)
    have hrmem : r ∈ (sortByYear (filterStep t)).filter
        fun x => x.entity == e := mem_of_getLast?_eq hr
    have hrs : r ∈ sortByYear (filterStep t) := (List.mem_filter.mp hrmem).1
    have hrft : r ∈ filterStep t :=
      ((List.perm_insertionSort yearLe (filterStep t)).mem_iff).mp hrs
    have hre : r.entity = e := by
      have h2 := (List.mem_filter.mp hrmem).2
      simpa using h2
    have hgl : groupLast e ((sortByYear (filterStep t)).filter
        fun x => x.entity == e) = some r :=
      groupLast_eq_of_codes hall hr hre
    have hrlatest : r ∈ latest (filterStep t) := by
      simp only [latest]
      exact List.mem_filterMap.mpr ⟨e, hkeys, hgl⟩
    refine ⟨r, hrlatest, hre, hrft, ?_⟩
    intro x hx hxe
    have hxs : x ∈ sortByYear (filterStep t) :=
      ((List.perm_insertionSort yearLe (filterStep t)).mem_iff).mpr hx
    have hxf : x ∈ (sortByYear (filterStep t)).filter
        fun q => q.entity == e :=
      List.mem_filter.mpr ⟨hxs, by rw [hxe]; exact beq_self_eq_true e⟩
    have hsorted : ((sortByYear (filterStep t)).filter
        fun q => q.entity == e).Pairwise yearLe :=
      List.Pairwise.filter _ (List.sorted_insertionSort yearLe (filterStep t))
    exact pairwise_getLast_year hsorted hr x hxf

/-- Two rows with distinct Entities sharing one Code. -/
def twoEnt : List Row :=
  [plainRow "Aland" (some "ABC") 2000, plainRow "Bland" (some "ABC") 2001]

/-- Claim C1, counterexample: when two Entities share the Code "ABC",
the Code "ABC" appears in the filtered input but the selection outputs
two rows with that Code, not exactly one - the grouping key is Entity. -/
theorem claim_C1_cex :
    (some "ABC") ∈ (filterStep twoEnt).map Row.code ∧
    (latest (filterStep twoEnt)).countP (fun r => r.code == some "ABC") = 2 ∧
    (latest (filterStep twoEnt)).countP (fun r => r.code == some "ABC") ≠ 1 := by
  decide

/-- One Entity observed in two years. -/
def twoYears : List Row :=
  [plainRow "France" (some "FRA") 2000, plainRow "France" (some "FRA") 2005]

/-- Witness for C1: on a concrete two-year table for one Entity, the
selection keeps exactly one row for that Entity, with the maximal
Year. -/
theorem claim_C1_witness :
    (latest (filterStep twoYears)).countP (fun r => r.entity == "France") = 1 ∧
    ∃ r ∈ latest (filterStep twoYears), r.entity = "France" ∧
      r ∈ filterStep twoYears ∧
      ∀ x ∈ filterStep twoYears, x.entity = "France" → x.year ≤ r.year :=
  claim_C1 twoYears "France" (by decide)
